import Mathlib

/-
Verification of the `env_map` crate (src/lib.rs): the single operation
`load` resolves a request of environment-variable names with optional
defaults against the process environment store, writing defaults back
for absent variables and aggregating per-variable errors.

The process environment store is modelled as an association list from
names to stored values; a stored value is either valid unicode text or
raw undecodable bytes.  `load` is embedded in explicit state-passing
style: it takes the initial store and returns the result together with
the final store.
-/

namespace EnvMap

deriving instance DecidableEq for Except

/-- Raw operating-system bytes that may fail to decode as text, abstracted
as a list of byte values. -/
abbrev Bytes := List Nat

/-- Embedding of `std::env::VarError`: the error returned by `std::env::var` — the
variable is absent, or its value is not valid unicode (carrying the raw
value). -/
inductive VarError where
  | NotPresent : VarError
  | NotUnicode : Bytes → VarError
  deriving DecidableEq, Repr

/-- A value stored in the process environment: valid unicode text, or raw
bytes that do not decode as text. -/
inductive EnvVal where
  | text : String → EnvVal
  | invalid : Bytes → EnvVal
  deriving DecidableEq, Repr

/-- The process environment store: an association list from variable names
to stored values (first binding wins on lookup). -/
abbrev Env := List (String × EnvVal)

/-- First-match association-list lookup. -/
def alookup {α : Type} (k : String) : List (String × α) → Option α
  | [] => none
  | (k₁, v) :: rest => if k₁ = k then some v else alookup k rest

/-- The list of keys of an association list. -/
def keys {α : Type} (m : List (String × α)) : List String :=
  m.map Prod.fst

/-- Embedding of `HashMap::insert`: replace the binding of `k` when present, otherwise
append a new binding. -/
def insertAssoc {α : Type} (k : String) (v : α) : List (String × α) → List (String × α)
  | [] => [(k, v)]
  | (k₁, v₁) :: rest =>
      if k₁ = k then (k, v) :: rest else (k₁, v₁) :: insertAssoc k v rest

/-- Embedding of `std::env::var`: read a named variable from the store, reporting
`NotPresent` when absent and `NotUnicode` when the stored value does not
decode as text. -/
def envVar (env : Env) (key : String) : Except VarError String :=
  match alookup key env with
  | none => .error .NotPresent
  | some (.text s) => .ok s
  | some (.invalid b) => .error (.NotUnicode b)

/-- Embedding of `std::env::set_var`: write (or overwrite) a named variable in the store. -/
def setVar (env : Env) (key value : String) : Env :=
  insertAssoc key (EnvVal.text value) env

/-- Embedding of `LoadError`: wraps the map of per-variable errors (`env_errors`). -/
structure LoadError where
  env_errors : List (String × VarError)
  deriving DecidableEq, Repr

/-- The state threaded through `load`'s loop: the environment store and
the two accumulators `env_map` and `env_errors`. -/
structure LoadState where
  env : Env
  env_map : List (String × String)
  env_errors : List (String × VarError)
  deriving DecidableEq, Repr

/-- One iteration of `load`'s loop over a request entry `(name, option)`:
mirror of the `match env::var(&key)` in src/lib.rs lines 60-78. -/
def loadStep (st : LoadState) (entry : String × Option String) : LoadState :=
  let key := entry.1
  match envVar st.env key with
  | .ok value => { st with env_map := insertAssoc key value st.env_map }
  | .error err =>
      match err with
      | .NotPresent =>
          match entry.2 with
          | some value =>
              { st with env := setVar st.env key value,
                        env_map := insertAssoc key value st.env_map }
          | none => { st with env_errors := insertAssoc key err st.env_errors }
      | .NotUnicode _ => { st with env_errors := insertAssoc key err st.env_errors }

/-- The whole loop of `load`: fold `loadStep` over the request entries. -/
def loadAll (env_vars : List (String × Option String)) (st : LoadState) : LoadState :=
  env_vars.foldl loadStep st

/-- The state at entry to `load`'s loop: the given environment store and the
two freshly created empty accumulators (`HashMap::new()`). -/
def initState (env : Env) : LoadState :=
  { env := env, env_map := [], env_errors := [] }

/-- Embedding of `load` (src/lib.rs lines 53-86): run the loop from empty accumulators,
then return `Ok(env_map)` when `env_errors` is empty and
`Err(LoadError { env_errors })` otherwise, paired with the final
environment store. -/
def load (env_vars : List (String × Option String)) (env : Env) :
    Except LoadError (List (String × String)) × Env :=
  let st := loadAll env_vars (initState env)
  (if st.env_errors.isEmpty then .ok st.env_map
   else .error { env_errors := st.env_errors }, st.env)

/-- The per-entry outcome determined by the entry's lookup result and its
default option: the binding recorded in `env_map`, the binding recorded in
`env_errors`, and the value the store holds for the name afterwards. -/
def entryOutcome (e : Except VarError String) (dopt : Option String) :
    Option String × Option VarError × Except VarError String :=
  match e, dopt with
  | .ok v, _ => (some v, none, .ok v)
  | .error .NotPresent, some d => (some d, none, .ok d)
  | .error .NotPresent, none => (none, some .NotPresent, .error .NotPresent)
  | .error (.NotUnicode b), _ => (none, some (.NotUnicode b), .error (.NotUnicode b))

theorem keys_nil {α : Type} : keys ([] : List (String × α)) = [] := rfl

theorem keys_cons {α : Type} (p : String × α) (m : List (String × α)) :
    keys (p :: m) = p.1 :: keys m := rfl

theorem alookup_insertAssoc_self {α : Type} (m : List (String × α)) (k : String) (v : α) :
    alookup k (insertAssoc k v m) = some v := by
  induction m with
  | nil => simp [insertAssoc, alookup]
  | cons p rest ih =>
      obtain ⟨k₁, v₁⟩ := p
      by_cases h : k₁ = k <;> simp [insertAssoc, alookup, h, ih]

theorem alookup_insertAssoc_ne {α : Type} (m : List (String × α)) {k k' : String} (v : α)
    (h : k' ≠ k) : alookup k' (insertAssoc k v m) = alookup k' m := by
  induction m with
  | nil => simp [insertAssoc, alookup, Ne.symm h]
  | cons p rest ih =>
      obtain ⟨k₁, v₁⟩ := p
      by_cases h₁ : k₁ = k
      · subst h₁
        simp [insertAssoc, alookup, Ne.symm h]
      · simp [insertAssoc, alookup, h₁, ih]

theorem mem_keys_insertAssoc {α : Type} (m : List (String × α)) (k k' : String) (v : α) :
    k' ∈ keys (insertAssoc k v m) ↔ k' = k ∨ k' ∈ keys m := by
  induction m with
  | nil => simp [insertAssoc, keys]
  | cons p rest ih =>
      obtain ⟨k₁, v₁⟩ := p
      by_cases h : k₁ = k
      · subst h
        simp only [insertAssoc, eq_self_iff_true, if_true, keys_cons, List.mem_cons]
        tauto
      · simp only [insertAssoc, if_neg h, keys_cons, List.mem_cons, ih]
        tauto

theorem alookup_eq_none_of_not_mem_keys {α : Type} {m : List (String × α)} {k : String}
    (h : k ∉ keys m) : alookup k m = none := by
  induction m with
  | nil => rfl
  | cons p rest ih =>
      obtain ⟨k₁, v₁⟩ := p
      rw [keys_cons, List.mem_cons] at h
      push_neg at h
      simp [alookup, Ne.symm h.1, ih h.2]

theorem mem_keys_of_alookup_eq_some {α : Type} {m : List (String × α)} {k : String} {v : α}
    (h : alookup k m = some v) : k ∈ keys m := by
  induction m with
  | nil => simp [alookup] at h
  | cons p rest ih =>
      obtain ⟨k₁, v₁⟩ := p
      rw [keys_cons, List.mem_cons]
      by_cases h₁ : k₁ = k
      · exact Or.inl h₁.symm
      · simp [alookup, h₁] at h
        exact Or.inr (ih h)

theorem alookup_ne_none_of_mem_keys {α : Type} {m : List (String × α)} {k : String}
    (h : k ∈ keys m) : alookup k m ≠ none := by
  induction m with
  | nil => simp [keys] at h
  | cons p rest ih =>
      obtain ⟨k₁, v₁⟩ := p
      by_cases h₁ : k₁ = k
      · simp [alookup, h₁]
      · rw [keys_cons, List.mem_cons] at h
        rcases h with h | h
        · exact absurd h.symm h₁
        · simp [alookup, h₁, ih h]

theorem eq_nil_of_alookup_all_none {α : Type} {m : List (String × α)}
    (h : ∀ k, alookup k m = none) : m = [] := by
  cases m with
  | nil => rfl
  | cons p rest =>
      obtain ⟨k₁, v₁⟩ := p
      have := h k₁
      simp [alookup] at this

theorem loadAll_nil (st : LoadState) : loadAll [] st = st := rfl

theorem loadAll_cons (e : String × Option String) (l : List (String × Option String))
    (st : LoadState) : loadAll (e :: l) st = loadAll l (loadStep st e) := rfl

theorem envVar_setVar_self (env : Env) (k v : String) :
    envVar (setVar env k v) k = .ok v := by
  unfold envVar setVar
  rw [alookup_insertAssoc_self]

theorem envVar_setVar_ne (env : Env) {k k' : String} (v : String) (h : k' ≠ k) :
    envVar (setVar env k v) k' = envVar env k' := by
  unfold envVar setVar
  rw [alookup_insertAssoc_ne env (EnvVal.text v) h]

theorem loadStep_ok {st : LoadState} {k v : String} (dopt : Option String)
    (h : envVar st.env k = .ok v) :
    loadStep st (k, dopt) = { st with env_map := insertAssoc k v st.env_map } := by
  simp [loadStep, h]

theorem loadStep_absent_default {st : LoadState} {k : String} (d : String)
    (h : envVar st.env k = .error .NotPresent) :
    loadStep st (k, some d) =
      { st with env := setVar st.env k d, env_map := insertAssoc k d st.env_map } := by
  simp [loadStep, h]

theorem loadStep_absent_none {st : LoadState} {k : String}
    (h : envVar st.env k = .error .NotPresent) :
    loadStep st (k, none) =
      { st with env_errors := insertAssoc k VarError.NotPresent st.env_errors } := by
  simp [loadStep, h]

theorem loadStep_invalid {st : LoadState} {k : String} {b : Bytes} (dopt : Option String)
    (h : envVar st.env k = .error (.NotUnicode b)) :
    loadStep st (k, dopt) =
      { st with env_errors := insertAssoc k (VarError.NotUnicode b) st.env_errors } := by
  simp [loadStep, h]

theorem loadStep_other {st : LoadState} {e : String × Option String} {k : String}
    (h : k ≠ e.1) :
    envVar (loadStep st e).env k = envVar st.env k ∧
    alookup k (loadStep st e).env_map = alookup k st.env_map ∧
    alookup k (loadStep st e).env_errors = alookup k st.env_errors := by
  obtain ⟨k₁, dopt⟩ := e
  cases hv : envVar st.env k₁ with
  | ok v =>
      rw [loadStep_ok dopt hv]
      exact ⟨rfl, alookup_insertAssoc_ne _ _ h, rfl⟩
  | error err =>
      cases err with
      | NotPresent =>
          cases dopt with
          | some d =>
              rw [loadStep_absent_default d hv]
              exact ⟨envVar_setVar_ne st.env d h, alookup_insertAssoc_ne _ _ h, rfl⟩
          | none =>
              rw [loadStep_absent_none hv]
              exact ⟨rfl, rfl, alookup_insertAssoc_ne _ _ h⟩
      | NotUnicode b =>
          rw [loadStep_invalid dopt hv]
          exact ⟨rfl, rfl, alookup_insertAssoc_ne _ _ h⟩

theorem envVar_loadAll_frame (l : List (String × Option String)) :
    ∀ (st : LoadState) {k : String},
      ((∀ d, (k, some d) ∉ l) ∨ envVar st.env k ≠ .error .NotPresent) →
      envVar (loadAll l st).env k = envVar st.env k := by
  induction l with
  | nil => intro st k _; rfl
  | cons e l ih =>
      intro st k h
      obtain ⟨k₁, dopt⟩ := e
      rw [loadAll_cons]
      by_cases hk : k = k₁
      · subst hk
        cases hv : envVar st.env k with
        | ok v =>
            rw [loadStep_ok dopt hv]
            rw [ih { st with env_map := insertAssoc k v st.env_map }
              (Or.inr (show envVar st.env k ≠ _ by rw [hv]; intro hh; cases hh))]
            exact hv
        | error err =>
            cases err with
            | NotPresent =>
                cases dopt with
                | some d =>
                    rcases h with h | h
                    · exact absurd (List.mem_cons_self _ _) (h d)
                    · exact absurd hv h
                | none =>
                    rcases h with h | h
                    · rw [loadStep_absent_none hv]
                      rw [ih { st with
                            env_errors := insertAssoc k VarError.NotPresent st.env_errors }
                        (Or.inl fun d hd => h d (List.mem_cons_of_mem _ hd))]
                      exact hv
                    · exact absurd hv h
            | NotUnicode b =>
                rw [loadStep_invalid dopt hv]
                rw [ih { st with
                      env_errors := insertAssoc k (VarError.NotUnicode b) st.env_errors }
                  (Or.inr (show envVar st.env k ≠ _ by rw [hv]; intro hh; cases hh))]
                exact hv
      · have hstep := @loadStep_other st (k₁, dopt) k hk
        have htail : (∀ d, (k, some d) ∉ l) ∨
            envVar (loadStep st (k₁, dopt)).env k ≠ .error .NotPresent := by
          rcases h with h | h
          · exact Or.inl fun d hd => h d (List.mem_cons_of_mem _ hd)
          · exact Or.inr (by rw [hstep.1]; exact h)
        rw [ih _ htail, hstep.1]

theorem loadAll_acc_frame (l : List (String × Option String)) :
    ∀ (st : LoadState) {k : String}, k ∉ keys l →
      alookup k (loadAll l st).env_map = alookup k st.env_map ∧
      alookup k (loadAll l st).env_errors = alookup k st.env_errors := by
  induction l with
  | nil => intro st k _; exact ⟨rfl, rfl⟩
  | cons e l ih =>
      intro st k h
      rw [keys_cons, List.mem_cons] at h
      push_neg at h
      have hstep := @loadStep_other st e k h.1
      rw [loadAll_cons]
      have htail := ih (loadStep st e) h.2
      exact ⟨htail.1.trans hstep.2.1, htail.2.trans hstep.2.2⟩

theorem loadAll_entry (l : List (String × Option String)) :
    ∀ (st : LoadState) {k : String} {dopt : Option String},
      (k, dopt) ∈ l → (keys l).Nodup →
      alookup k st.env_map = none → alookup k st.env_errors = none →
      alookup k (loadAll l st).env_map = (entryOutcome (envVar st.env k) dopt).1 ∧
      alookup k (loadAll l st).env_errors = (entryOutcome (envVar st.env k) dopt).2.1 ∧
      envVar (loadAll l st).env k = (entryOutcome (envVar st.env k) dopt).2.2 := by
  induction l with
  | nil => intro st k dopt hmem; simp at hmem
  | cons e l ih =>
      intro st k dopt hmem hnd hm he
      obtain ⟨k₁, d₁⟩ := e
      rw [keys_cons] at hnd
      have hnd₁ : k₁ ∉ keys l := (List.nodup_cons.mp hnd).1
      have hndl : (keys l).Nodup := (List.nodup_cons.mp hnd).2
      rw [loadAll_cons]
      rcases List.mem_cons.mp hmem with heq | htail
      · cases heq
        cases hv : envVar st.env k with
        | ok v =>
            rw [loadStep_ok dopt hv]
            have hfr := loadAll_acc_frame l { st with env_map := insertAssoc k v st.env_map } hnd₁
            have henv := envVar_loadAll_frame l { st with env_map := insertAssoc k v st.env_map }
              (Or.inr (show envVar st.env k ≠ _ by rw [hv]; intro hh; cases hh))
            simp only [entryOutcome]
            refine ⟨?_, ?_, ?_⟩
            · rw [hfr.1]; exact alookup_insertAssoc_self st.env_map k v
            · rw [hfr.2]; exact he
            · rw [henv]; exact hv
        | error err =>
            cases err with
            | NotPresent =>
                cases dopt with
                | some d =>
                    rw [loadStep_absent_default d hv]
                    have hfr := loadAll_acc_frame l
                      { st with env := setVar st.env k d,
                                env_map := insertAssoc k d st.env_map } hnd₁
                    have henv := envVar_loadAll_frame l
                      { st with env := setVar st.env k d,
                                env_map := insertAssoc k d st.env_map }
                      (Or.inr (show envVar (setVar st.env k d) k ≠ _ by
                        rw [envVar_setVar_self]; intro hh; cases hh))
                    simp only [entryOutcome]
                    refine ⟨?_, ?_, ?_⟩
                    · rw [hfr.1]; exact alookup_insertAssoc_self st.env_map k d
                    · rw [hfr.2]; exact he
                    · rw [henv]; exact envVar_setVar_self st.env k d
                | none =>
                    rw [loadStep_absent_none hv]
                    have hfr := loadAll_acc_frame l
                      { st with env_errors := insertAssoc k VarError.NotPresent st.env_errors }
                      hnd₁
                    have henv := envVar_loadAll_frame l
                      { st with env_errors := insertAssoc k VarError.NotPresent st.env_errors }
                      (Or.inl fun d hd => hnd₁ (List.mem_map_of_mem Prod.fst hd))
                    simp only [entryOutcome]
                    refine ⟨?_, ?_, ?_⟩
                    · rw [hfr.1]; exact hm
                    · rw [hfr.2]; exact alookup_insertAssoc_self st.env_errors k _
                    · rw [henv]; exact hv
            | NotUnicode b =>
                rw [loadStep_invalid dopt hv]
                have hfr := loadAll_acc_frame l
                  { st with env_errors := insertAssoc k (VarError.NotUnicode b) st.env_errors }
                  hnd₁
                have henv := envVar_loadAll_frame l
                  { st with env_errors := insertAssoc k (VarError.NotUnicode b) st.env_errors }
                  (Or.inr (show envVar st.env k ≠ _ by rw [hv]; intro hh; cases hh))
                simp only [entryOutcome]
                refine ⟨?_, ?_, ?_⟩
                · rw [hfr.1]; exact hm
                · rw [hfr.2]; exact alookup_insertAssoc_self st.env_errors k _
                · rw [henv]; exact hv
      · have hne : k ≠ k₁ := by
          intro hh
          exact hnd₁ (hh ▸ List.mem_map_of_mem Prod.fst htail)
        have hstep := @loadStep_other st (k₁, d₁) k hne
        have := ih (loadStep st (k₁, d₁)) htail hndl
          (hstep.2.1.trans hm) (hstep.2.2.trans he)
        rw [hstep.1] at this
        exact this

theorem initState_env (env : Env) : (initState env).env = env := rfl

theorem initState_env_map (env : Env) : (initState env).env_map = [] := rfl

theorem initState_env_errors (env : Env) : (initState env).env_errors = [] := rfl

theorem load_eq (env_vars : List (String × Option String)) (env : Env) :
    load env_vars env =
      (if (loadAll env_vars (initState env)).env_errors.isEmpty
        then .ok (loadAll env_vars (initState env)).env_map
        else .error { env_errors := (loadAll env_vars (initState env)).env_errors },
       (loadAll env_vars (initState env)).env) := rfl

theorem load_snd (env_vars : List (String × Option String)) (env : Env) :
    (load env_vars env).2 = (loadAll env_vars (initState env)).env := rfl

theorem mem_keys_iff_alookup {α : Type} (m : List (String × α)) (k : String) :
    k ∈ keys m ↔ alookup k m ≠ none := by
  constructor
  · exact alookup_ne_none_of_mem_keys
  · intro h
    cases hm : alookup k m with
    | none => exact absurd hm h
    | some v => exact mem_keys_of_alookup_eq_some hm

theorem isEmpty_false_of_ne_nil {α : Type} {l : List α} (h : l ≠ []) :
    l.isEmpty = false := by
  cases l with
  | nil => exact absurd rfl h
  | cons a l => rfl

theorem entryOutcome_stable (e : Except VarError String) (dopt : Option String) :
    entryOutcome ((entryOutcome e dopt).2.2) dopt = entryOutcome e dopt := by
  cases e with
  | ok v => cases dopt <;> rfl
  | error err => cases err <;> cases dopt <;> rfl

theorem loadAll_all_present (l : List (String × Option String)) :
    ∀ (st : LoadState),
      (∀ p ∈ l, ∃ v, envVar st.env p.1 = .ok v) →
      (loadAll l st).env = st.env ∧
      (loadAll l st).env_errors = st.env_errors ∧
      (∀ k, k ∈ keys (loadAll l st).env_map ↔ k ∈ keys l ∨ k ∈ keys st.env_map) ∧
      (∀ k v, k ∈ keys l → envVar st.env k = .ok v →
        alookup k (loadAll l st).env_map = some v) := by
  induction l with
  | nil =>
      intro st _
      refine ⟨rfl, rfl, fun k => ?_, fun k v hk _ => ?_⟩
      · simp [loadAll, keys]
      · simp [keys] at hk
  | cons e l ih =>
      intro st h
      obtain ⟨k₁, dopt⟩ := e
      obtain ⟨v₁, hv₁⟩ := h (k₁, dopt) (List.mem_cons_self _ _)
      rw [loadAll_cons, loadStep_ok dopt hv₁]
      have IH := ih { st with env_map := insertAssoc k₁ v₁ st.env_map }
        (fun p hp => h p (List.mem_cons_of_mem _ hp))
      refine ⟨IH.1.trans rfl, IH.2.1.trans rfl, fun k => ?_, fun k v hk hv => ?_⟩
      · rw [IH.2.2.1 k]
        have hins := mem_keys_insertAssoc st.env_map k₁ k v₁
        rw [keys_cons, List.mem_cons]
        constructor
        · rintro (hkl | hkm)
          · exact Or.inl (Or.inr hkl)
          · rcases hins.mp hkm with hkk | hkm
            · exact Or.inl (Or.inl hkk)
            · exact Or.inr hkm
        · rintro ((hkk | hkl) | hkm)
          · exact Or.inr (hins.mpr (Or.inl hkk))
          · exact Or.inl hkl
          · exact Or.inr (hins.mpr (Or.inr hkm))
      · by_cases hkl : k ∈ keys l
        · exact IH.2.2.2 k v hkl hv
        · rw [keys_cons, List.mem_cons] at hk
          rcases hk with hkk | hkl₁
          · subst hkk
            have hfr := loadAll_acc_frame l
              { st with env_map := insertAssoc k v₁ st.env_map } hkl
            rw [hfr.1]
            have : v = v₁ := by
              rw [hv₁] at hv
              exact (Except.ok.injEq _ _ ▸ hv).symm ▸ rfl
            rw [this]
            exact alookup_insertAssoc_self st.env_map k v₁
          · exact absurd hkl₁ hkl

theorem loadAll_pointwise (l : List (String × Option String)) :
    ∀ (st₁ st₂ : LoadState),
      (∀ k, envVar st₁.env k = envVar st₂.env k) →
      st₁.env_map = st₂.env_map → st₁.env_errors = st₂.env_errors →
      (loadAll l st₁).env_map = (loadAll l st₂).env_map ∧
      (loadAll l st₁).env_errors = (loadAll l st₂).env_errors ∧
      (∀ k, envVar (loadAll l st₁).env k = envVar (loadAll l st₂).env k) := by
  induction l with
  | nil => intro st₁ st₂ henv hm he; exact ⟨hm, he, henv⟩
  | cons e l ih =>
      intro st₁ st₂ henv hm he
      obtain ⟨k₁, dopt⟩ := e
      rw [loadAll_cons, loadAll_cons]
      cases hv : envVar st₁.env k₁ with
      | ok v =>
          have hv₂ : envVar st₂.env k₁ = .ok v := (henv k₁).symm.trans hv
          rw [loadStep_ok dopt hv, loadStep_ok dopt hv₂]
          exact ih _ _ henv (by rw [hm]) he
      | error err =>
          have hv₂ : envVar st₂.env k₁ = .error err := (henv k₁).symm.trans hv
          cases err with
          | NotPresent =>
              cases dopt with
              | some d =>
                  rw [loadStep_absent_default d hv, loadStep_absent_default d hv₂]
                  refine ih _ _ (fun k => ?_) (by rw [hm]) he
                  show envVar (setVar st₁.env k₁ d) k = envVar (setVar st₂.env k₁ d) k
                  by_cases hk : k = k₁
                  · subst hk
                    rw [envVar_setVar_self, envVar_setVar_self]
                  · rw [envVar_setVar_ne st₁.env d hk, envVar_setVar_ne st₂.env d hk]
                    exact henv k
              | none =>
                  rw [loadStep_absent_none hv, loadStep_absent_none hv₂]
                  exact ih _ _ henv hm (by rw [he])
          | NotUnicode b =>
              rw [loadStep_invalid dopt hv, loadStep_invalid dopt hv₂]
              exact ih _ _ henv hm (by rw [he])

theorem loadAll_restart (env_vars : List (String × Option String)) (env : Env)
    (hnd : (keys env_vars).Nodup) (k : String) :
    alookup k (loadAll env_vars (initState (loadAll env_vars (initState env)).env)).env_map =
      alookup k (loadAll env_vars (initState env)).env_map ∧
    alookup k (loadAll env_vars (initState (loadAll env_vars (initState env)).env)).env_errors =
      alookup k (loadAll env_vars (initState env)).env_errors := by
  by_cases hk : k ∈ keys env_vars
  · obtain ⟨⟨k₀, dopt⟩, hp, hfst⟩ := List.mem_map.mp hk
    dsimp at hfst
    subst hfst
    obtain ⟨h₁m, h₁e, h₁v⟩ := loadAll_entry env_vars (initState env) hp hnd rfl rfl
    obtain ⟨h₂m, h₂e, _⟩ := loadAll_entry env_vars
      (initState (loadAll env_vars (initState env)).env) hp hnd rfl rfl
    rw [initState_env] at h₁m h₁e h₁v h₂m h₂e
    rw [h₁v, entryOutcome_stable] at h₂m h₂e
    exact ⟨h₂m.trans h₁m.symm, h₂e.trans h₁e.symm⟩
  · have hfr₁ := loadAll_acc_frame env_vars (initState env) hk
    have hfr₂ := loadAll_acc_frame env_vars
      (initState (loadAll env_vars (initState env)).env) hk
    exact ⟨(hfr₂.1.trans rfl).trans (hfr₁.1.trans rfl).symm,
           (hfr₂.2.trans rfl).trans (hfr₁.2.trans rfl).symm⟩

theorem load_error_of_errors_lookup {env_vars : List (String × Option String)} {env : Env}
    {k : String} {err : VarError}
    (h : alookup k (loadAll env_vars (initState env)).env_errors = some err) :
    ∃ e : LoadError, (load env_vars env).1 = .error e ∧ alookup k e.env_errors = some err := by
  have hne : (loadAll env_vars (initState env)).env_errors ≠ [] := by
    intro h0
    rw [h0] at h
    exact Option.noConfusion h
  refine ⟨{ env_errors := (loadAll env_vars (initState env)).env_errors }, ?_, h⟩
  rw [load_eq, isEmpty_false_of_ne_nil hne]
  rfl

/-- C1: partition invariant — with a duplicate-free request key set, a key
belongs to the union of the key sets of the `env_map` and `env_errors`
accumulated by `load` exactly when it is a request key, and never belongs
to both. -/
theorem load_partition (env_vars : List (String × Option String)) (env : Env)
    (hnd : (keys env_vars).Nodup) (k : String) :
    ((k ∈ keys (loadAll env_vars (initState env)).env_map ∨
      k ∈ keys (loadAll env_vars (initState env)).env_errors) ↔ k ∈ keys env_vars) ∧
    ¬(k ∈ keys (loadAll env_vars (initState env)).env_map ∧
      k ∈ keys (loadAll env_vars (initState env)).env_errors) := by
  by_cases hk : k ∈ keys env_vars
  · obtain ⟨⟨k₀, dopt⟩, hp, hfst⟩ := List.mem_map.mp hk
    dsimp at hfst
    subst hfst
    obtain ⟨h1, h2, _⟩ := loadAll_entry env_vars (initState env) hp hnd rfl rfl
    rw [initState_env] at h1 h2
    constructor
    · rw [mem_keys_iff_alookup, mem_keys_iff_alookup, h1, h2]
      cases hv : envVar env k₀ with
      | ok v => simp [entryOutcome, hk]
      | error err => cases err <;> cases dopt <;> simp [entryOutcome, hk]
    · rw [mem_keys_iff_alookup, mem_keys_iff_alookup, h1, h2]
      cases hv : envVar env k₀ with
      | ok v => simp [entryOutcome]
      | error err => cases err <;> cases dopt <;> simp [entryOutcome]
  · have hfr := loadAll_acc_frame env_vars (initState env) hk
    have hm1 : alookup k (loadAll env_vars (initState env)).env_map = none :=
      hfr.1.trans rfl
    have he1 : alookup k (loadAll env_vars (initState env)).env_errors = none :=
      hfr.2.trans rfl
    constructor
    · rw [mem_keys_iff_alookup, mem_keys_iff_alookup, hm1, he1]
      simp [hk]
    · rw [mem_keys_iff_alookup, mem_keys_iff_alookup, hm1, he1]
      simp

/-- C1 witness: the partition invariant at the request
`{A ↦ no default, B ↦ "x"}` against the store `{A ↦ "1"}`, at key `B`. -/
theorem load_partition_witness :
    ((("B" : String) ∈
        keys (loadAll [("A", none), ("B", some "x")]
          (initState [("A", EnvVal.text "1")])).env_map ∨
      ("B" : String) ∈
        keys (loadAll [("A", none), ("B", some "x")]
          (initState [("A", EnvVal.text "1")])).env_errors) ↔
      ("B" : String) ∈ keys [("A", (none : Option String)), ("B", some "x")]) ∧
    ¬(("B" : String) ∈
        keys (loadAll [("A", none), ("B", some "x")]
          (initState [("A", EnvVal.text "1")])).env_map ∧
      ("B" : String) ∈
        keys (loadAll [("A", none), ("B", some "x")]
          (initState [("A", EnvVal.text "1")])).env_errors) :=
  load_partition [("A", none), ("B", some "x")] [("A", EnvVal.text "1")] (by decide) "B"

/-- C2: a name that is present in the store but whose value does not decode
as text is recorded as a `NotUnicode` error and makes `load` fail, whether
or not a default is supplied. -/
theorem load_not_unicode_fails (env_vars : List (String × Option String)) (env : Env)
    (k : String) (dopt : Option String) (b : Bytes)
    (hnd : (keys env_vars).Nodup) (hmem : (k, dopt) ∈ env_vars)
    (hv : envVar env k = .error (.NotUnicode b)) :
    ∃ e : LoadError, (load env_vars env).1 = .error e ∧
      alookup k e.env_errors = some (VarError.NotUnicode b) := by
  obtain ⟨_, h2, _⟩ := loadAll_entry env_vars (initState env) hmem hnd rfl rfl
  rw [initState_env, hv] at h2
  cases dopt with
  | some d =>
      simp only [entryOutcome] at h2
      exact load_error_of_errors_lookup h2
  | none =>
      simp only [entryOutcome] at h2
      exact load_error_of_errors_lookup h2

/-- C2 witness: a present-but-undecodable `A` with a default still fails
with `NotUnicode`. -/
theorem load_not_unicode_fails_witness :
    ∃ e : LoadError,
      (load [("A", some "d")] [("A", EnvVal.invalid [255])]).1 = .error e ∧
      alookup "A" e.env_errors = some (VarError.NotUnicode [255]) :=
  load_not_unicode_fails [("A", some "d")] [("A", EnvVal.invalid [255])]
    "A" (some "d") [255] (by decide) (by decide) rfl

/-- C3: an absent name with default `d` is recorded as `d` in the
accumulated `env_map` and written back to the store, so a subsequent read
of the final store yields `d`. -/
theorem load_default_applied (env_vars : List (String × Option String)) (env : Env)
    (k d : String)
    (hnd : (keys env_vars).Nodup) (hmem : (k, some d) ∈ env_vars)
    (hv : envVar env k = .error .NotPresent) :
    alookup k (loadAll env_vars (initState env)).env_map = some d ∧
    envVar (load env_vars env).2 k = .ok d := by
  obtain ⟨h1, _, h3⟩ := loadAll_entry env_vars (initState env) hmem hnd rfl rfl
  rw [initState_env, hv] at h1 h3
  simp only [entryOutcome] at h1 h3
  refine ⟨h1, ?_⟩
  rw [load_snd]
  exact h3

/-- C3 witness: requesting absent `A` with default `"d"` records and writes
back `"d"`. -/
theorem load_default_applied_witness :
    alookup "A" (loadAll [("A", some "d")] (initState [])).env_map = some "d" ∧
    envVar (load [("A", some "d")] []).2 "A" = .ok "d" :=
  load_default_applied [("A", some "d")] [] "A" "d" (by decide) (by decide) rfl

/-- C4: `load` returns failure exactly when the error map accumulated over
all entries is non-empty, and the failure then carries that complete map;
otherwise it returns the accumulated `env_map` as success. -/
theorem load_failure_iff (env_vars : List (String × Option String)) (env : Env) :
    ((∃ e : LoadError, (load env_vars env).1 = .error e ∧
        e.env_errors = (loadAll env_vars (initState env)).env_errors) ↔
      (loadAll env_vars (initState env)).env_errors ≠ []) ∧
    ((load env_vars env).1 = .ok (loadAll env_vars (initState env)).env_map ↔
      (loadAll env_vars (initState env)).env_errors = []) := by
  rw [load_eq]
  cases hE : (loadAll env_vars (initState env)).env_errors with
  | nil => simp
  | cons p rest => simp

/-- C5: when every requested name is present in the store with a decodable
value, `load` succeeds and the returned map has exactly the request's keys,
bound to the store's current values; the empty request succeeds with the
empty map. -/
theorem load_all_present_success (env_vars : List (String × Option String)) (env : Env)
    (hpres : ∀ p ∈ env_vars, ∃ v, envVar env p.1 = .ok v) :
    ∃ m, (load env_vars env).1 = .ok m ∧
      (∀ k, k ∈ keys m ↔ k ∈ keys env_vars) ∧
      (∀ k v, k ∈ keys env_vars → envVar env k = .ok v → alookup k m = some v) := by
  have H := loadAll_all_present env_vars (initState env) (fun p hp => hpres p hp)
  have hE : (loadAll env_vars (initState env)).env_errors = [] := H.2.1.trans rfl
  refine ⟨(loadAll env_vars (initState env)).env_map, ?_, fun k => ?_, fun k v hk hv => ?_⟩
  · rw [load_eq, hE]
    rfl
  · rw [H.2.2.1 k, initState_env_map, keys_nil]
    simp
  · exact H.2.2.2 k v hk hv

/-- C5 witness: the request `{A ↦ no default}` against the store
`{A ↦ "1"}` succeeds with `A` bound to `"1"`. -/
theorem load_all_present_success_witness :
    ∃ m, (load [("A", none)] [("A", EnvVal.text "1")]).1 = .ok m ∧
      (∀ k, k ∈ keys m ↔ k ∈ keys [("A", (none : Option String))]) ∧
      (∀ k v, k ∈ keys [("A", (none : Option String))] →
        envVar [("A", EnvVal.text "1")] k = .ok v → alookup k m = some v) :=
  load_all_present_success [("A", none)] [("A", EnvVal.text "1")]
    (by intro p hp
        rw [List.mem_singleton] at hp
        subst hp
        exact ⟨"1", rfl⟩)

/-- C6: an absent name with no default is recorded as `NotPresent` and the
call fails with that binding in the returned error map. -/
theorem load_missing_fails (env_vars : List (String × Option String)) (env : Env)
    (k : String)
    (hnd : (keys env_vars).Nodup) (hmem : (k, none) ∈ env_vars)
    (hv : envVar env k = .error .NotPresent) :
    ∃ e : LoadError, (load env_vars env).1 = .error e ∧
      alookup k e.env_errors = some VarError.NotPresent := by
  obtain ⟨_, h2, _⟩ := loadAll_entry env_vars (initState env) hmem hnd rfl rfl
  rw [initState_env, hv] at h2
  simp only [entryOutcome] at h2
  exact load_error_of_errors_lookup h2

/-- C6 witness: requesting absent `A` with no default fails with
`A ↦ NotPresent`. -/
theorem load_missing_fails_witness :
    ∃ e : LoadError, (load [("A", none)] []).1 = .error e ∧
      alookup "A" e.env_errors = some VarError.NotPresent :=
  load_missing_fails [("A", none)] [] "A" (by decide) (by decide) rfl

/-- C7: write-back of a default is per-entry, not transactional: an absent
name with default `d` is written into the store even when the call as a
whole returns failure. -/
theorem load_writeback_not_transactional (env_vars : List (String × Option String))
    (env : Env) (k d : String) (e : LoadError)
    (hnd : (keys env_vars).Nodup) (hmem : (k, some d) ∈ env_vars)
    (hv : envVar env k = .error .NotPresent)
    (hfail : (load env_vars env).1 = .error e) :
    envVar (load env_vars env).2 k = .ok d := by
  obtain ⟨_, _, h3⟩ := loadAll_entry env_vars (initState env) hmem hnd rfl rfl
  rw [initState_env, hv] at h3
  simp only [entryOutcome] at h3
  rw [load_snd]
  exact h3

/-- C7 witness: the request `{A ↦ no default, B ↦ "x"}` on the empty store
fails with `ErrorMap = {A ↦ NotPresent}`, yet `B` is written to `"x"`. -/
theorem load_writeback_not_transactional_witness :
    envVar (load [("A", none), ("B", some "x")] []).2 "B" = .ok "x" :=
  load_writeback_not_transactional [("A", none), ("B", some "x")] [] "B" "x"
    { env_errors := [("A", VarError.NotPresent)] }
    (by decide) (by decide) rfl rfl

/-- C8: idempotence — running `load` again on the store left by a first run
accumulates an `env_map` with identical contents; in particular, after a
successful first call the second call succeeds with an equal map. -/
theorem load_idempotent (env_vars : List (String × Option String)) (env : Env)
    (hnd : (keys env_vars).Nodup) :
    (∀ k, alookup k (loadAll env_vars (initState (load env_vars env).2)).env_map =
          alookup k (loadAll env_vars (initState env)).env_map) ∧
    (∀ m, (load env_vars env).1 = .ok m →
      ∃ m₂, (load env_vars (load env_vars env).2).1 = .ok m₂ ∧
        ∀ k, alookup k m₂ = alookup k m) := by
  constructor
  · intro k
    rw [load_snd]
    exact (loadAll_restart env_vars env hnd k).1
  · intro m hok
    rw [load_eq] at hok
    cases hE : (loadAll env_vars (initState env)).env_errors with
    | cons p rest =>
        rw [hE] at hok
        simp at hok
    | nil =>
        rw [hE] at hok
        simp at hok
        have hE₂ : (loadAll env_vars
            (initState (load env_vars env).2)).env_errors = [] := by
          apply eq_nil_of_alookup_all_none
          intro k
          rw [load_snd]
          rw [(loadAll_restart env_vars env hnd k).2, hE]
          rfl
        refine ⟨(loadAll env_vars (initState (load env_vars env).2)).env_map,
                ?_, fun k => ?_⟩
        · rw [load_eq, hE₂]
          rfl
        · rw [load_snd]
          rw [(loadAll_restart env_vars env hnd k).1, hok]

/-- C8 witness: after a first call wrote the default for `A`, a second call
succeeds with the same map `{A ↦ "d"}`. -/
theorem load_idempotent_witness :
    (∀ k, alookup k (loadAll [("A", some "d")]
            (initState (load [("A", some "d")] []).2)).env_map =
          alookup k (loadAll [("A", some "d")] (initState [])).env_map) ∧
    (∃ m₂, (load [("A", some "d")] (load [("A", some "d")] []).2).1 = .ok m₂ ∧
      ∀ k, alookup k m₂ = alookup k [("A", "d")]) :=
  ⟨(load_idempotent [("A", some "d")] [] (by decide)).1,
   (load_idempotent [("A", some "d")] [] (by decide)).2 [("A", "d")] rfl⟩

/-- C9: environment frame — a name that is not requested together with a
default, or whose lookup at entry does not report absence, reads the same
from the store after `load` as before. -/
theorem load_env_frame (env_vars : List (String × Option String)) (env : Env) (k : String)
    (h : (∀ d, (k, some d) ∉ env_vars) ∨ envVar env k ≠ .error .NotPresent) :
    envVar (load env_vars env).2 k = envVar env k := by
  rw [load_snd]
  exact envVar_loadAll_frame env_vars (initState env) h

/-- C9 witness: a present `A` (requested with a default) keeps its stored
value across the call. -/
theorem load_env_frame_witness :
    envVar (load [("A", some "d"), ("B", none)] [("A", EnvVal.text "v")]).2 "A" =
      envVar [("A", EnvVal.text "v")] "A" :=
  load_env_frame [("A", some "d"), ("B", none)] [("A", EnvVal.text "v")] "A"
    (Or.inr (by decide))

/-- C10: determinism — two stores that answer every read identically produce
the same `load` result, and the final stores again answer every read
identically. -/
theorem load_deterministic (env_vars : List (String × Option String)) (env₁ env₂ : Env)
    (h : ∀ k, envVar env₁ k = envVar env₂ k) :
    (load env_vars env₁).1 = (load env_vars env₂).1 ∧
    (∀ k, envVar (load env_vars env₁).2 k = envVar (load env_vars env₂).2 k) := by
  have H := loadAll_pointwise env_vars (initState env₁) (initState env₂)
    (fun k => h k) rfl rfl
  constructor
  · rw [load_eq, load_eq, H.1, H.2.1]
  · intro k
    rw [load_snd, load_snd]
    exact H.2.2 k

/-- C10 witness: two observably equal stores (one with a shadowed duplicate
binding) give the same result and observably equal final stores. -/
theorem load_deterministic_witness :
    (load [("A", none), ("B", some "x")] [("A", EnvVal.text "1")]).1 =
      (load [("A", none), ("B", some "x")]
        [("A", EnvVal.text "1"), ("A", EnvVal.text "0")]).1 ∧
    (∀ k, envVar (load [("A", none), ("B", some "x")] [("A", EnvVal.text "1")]).2 k =
      envVar (load [("A", none), ("B", some "x")]
        [("A", EnvVal.text "1"), ("A", EnvVal.text "0")]).2 k) :=
  load_deterministic [("A", none), ("B", some "x")]
    [("A", EnvVal.text "1")] [("A", EnvVal.text "1"), ("A", EnvVal.text "0")]
    (by intro k
        by_cases hk : ("A" : String) = k <;> simp [envVar, alookup, hk])

end EnvMap
